import Mathlib

/-!
Verification development for the D-Be Recurrent curriculum-graph component.

The definitions below are a shallow embedding of the layout / edge-routing
pipeline of `src/components/TopicGraph.tsx` (and its instructor-filter
variant): progress statistics, the level-bucketed barycentric layout with
ten refinement sweeps, edge construction from `relatedTopics`, port
assignment by stable sorting, the initial fit transform, and the zoom
preservation logic.  JavaScript numbers are modelled as rationals, the
`nodePositions` map as a function `String → Option (ℚ × ℚ)`, and the
stable `Array.prototype.sort` as a stable insertion sort on rational keys.
-/

namespace DBe

/-- Layout constant `NODE_WIDTH` from TopicGraph.tsx. -/
def NODE_WIDTH : ℚ := 240

/-- Layout constant `NODE_HEIGHT` from TopicGraph.tsx. -/
def NODE_HEIGHT : ℚ := 160

/-- Layout constant `LEVEL_SPACING` from TopicGraph.tsx. -/
def LEVEL_SPACING : ℚ := 500

/-- Layout constant `NODE_SPACING` from TopicGraph.tsx. -/
def NODE_SPACING : ℚ := 280

/-- Layout constant `CONNECTOR_OFFSET` from TopicGraph.tsx. -/
def CONNECTOR_OFFSET : ℚ := 15

/-- A curriculum topic (`Topic` in `src/types.ts`), restricted to the fields
the layout pipeline reads: identity, level, related-topic ids, submodule ids
(`subTopics`, identified by their ids), and the owning teacher's email. -/
structure Topic where
  id : String
  level : Nat
  relatedTopics : List String
  subTopics : List String
  teacher : String
deriving DecidableEq, Repr

/-- Result of `getProgressStats`. -/
structure Stats where
  completed : Nat
  total : Nat
  percent : ℚ
deriving DecidableEq, Repr

/-- `getProgressStats` from TopicGraph.tsx: zero submodules short-circuit to
`{completed := 0, total := 0, percent := 0}`; otherwise percent is
`completed / total * 100`. -/
def getProgressStats (completedSubTopics : List String) (topic : Topic) : Stats :=
  if topic.subTopics.length = 0 then ⟨0, 0, 0⟩
  else
    let completed := (topic.subTopics.filter (fun st => completedSubTopics.contains st)).length
    let total := topic.subTopics.length
    ⟨completed, total, (completed : ℚ) / (total : ℚ) * 100⟩

/-- `isComplete` from TopicGraph.tsx: `stats.total > 0 && stats.percent === 100`. -/
def isComplete (completedSubTopics : List String) (topic : Topic) : Bool :=
  let stats := getProgressStats completedSubTopics topic
  decide (0 < stats.total) && decide (stats.percent = 100)

/-! ### Stable ascending sort

JavaScript's `Array.prototype.sort` with a numeric comparator
`(a, b) => key(a) - key(b)` is a stable ascending sort.  We model it by a
stable insertion sort on a rational key: an element is inserted after every
element with a strictly smaller key and before every element with an equal
or larger key, which preserves the relative input order of tied elements. -/

/-- Insert `x` after the elements with strictly smaller key. -/
def insertByKey {α : Type} (key : α → ℚ) (x : α) : List α → List α
  | [] => [x]
  | y :: ys => if key y < key x then y :: insertByKey key x ys else x :: y :: ys

/-- Stable ascending insertion sort by a rational key. -/
def sortByKey {α : Type} (key : α → ℚ) : List α → List α
  | [] => []
  | x :: xs => insertByKey key x (sortByKey key xs)

/-! ### Node position map -/

/-- The `nodePositions` map: topic id to position. -/
def PosMap : Type := String → Option (ℚ × ℚ)

/-- `nodePositions.set(id, p)`. -/
def PosMap.set (m : PosMap) (id : String) (p : ℚ × ℚ) : PosMap :=
  fun k => if k = id then some p else m k

/-- The empty position map. -/
def emptyPos : PosMap := fun _ => none

/-- `nodePositions.get(id)?.y || 0`: the stored y-coordinate, defaulting to 0
for a missing entry (in JavaScript a stored `0` is falsy and also yields 0,
so the default is semantically identical). -/
def posY (m : PosMap) (id : String) : ℚ := ((m id).map Prod.snd).getD 0

/-- Recursion core of `applySpacing`: assign node `i` of the list the
position `(startX, startY + i * NODE_SPACING)`. -/
def applySpacingAux (startX startY : ℚ) : Nat → List Topic → PosMap → PosMap
  | _, [], m => m
  | i, n :: ns, m =>
      applySpacingAux startX startY (i + 1) ns (m.set n.id (startX, startY + i * NODE_SPACING))

/-- `applySpacing` from TopicGraph.tsx: vertically center the level's column
(`startY = height/2 - totalHeight/2 + NODE_SPACING/2`) and give node `i` the
y-coordinate `startY + i * NODE_SPACING`. -/
def applySpacing (height : ℚ) (sortedNodes : List Topic) (startX : ℚ) (m : PosMap) : PosMap :=
  let totalHeight : ℚ := (sortedNodes.length : ℚ) * NODE_SPACING
  let startY : ℚ := height / 2 - totalHeight / 2 + NODE_SPACING / 2
  applySpacingAux startX startY 0 sortedNodes m

/-- The level bucket `levels[lvl]`, in input order. -/
def levelNodes (topics : List Topic) (lvl : Nat) : List Topic :=
  topics.filter (fun t => t.level == lvl)

/-- `maxLevel`, computed as in the source by a running maximum over the list. -/
def maxLevel (topics : List Topic) : Nat :=
  topics.foldl (fun m t => max m t.level) 0

/-- The x-coordinate of a level's column: `100 + (lvl - 1) * LEVEL_SPACING`. -/
def colX (lvl : Nat) : ℚ := 100 + ((lvl : ℚ) - 1) * LEVEL_SPACING

/-- Initial positions: for `lvl = 1 .. maxLevel`, space the bucket
`levels[lvl]` at column `colX lvl` in input order. -/
def initialPositions (topics : List Topic) (height : ℚ) : PosMap :=
  (List.range (maxLevel topics)).foldl
    (fun m l => applySpacing height (levelNodes topics (l + 1)) (colX (l + 1)) m)
    emptyPos

/-- Forward-pass sort weight of a bucket node: the mean current y of its
parents (`p.relatedTopics.includes(node.id) && p.level < lvl`), falling back
to the node's own current y when it has no parents. -/
def forwardWeight (topics : List Topic) (lvl : Nat) (m : PosMap) (node : Topic) : ℚ :=
  let parents := topics.filter (fun p => p.relatedTopics.contains node.id && decide (p.level < lvl))
  if 0 < parents.length then
    (parents.foldl (fun sum p => sum + posY m p.id) 0) / (parents.length : ℚ)
  else posY m node.id

/-- Backward-pass sort weight: the mean current y of the node's children
(`node.relatedTopics.includes(t.id) && t.level > lvl`), falling back to the
node's own current y. -/
def backwardWeight (topics : List Topic) (lvl : Nat) (m : PosMap) (node : Topic) : ℚ :=
  let children := topics.filter (fun t => node.relatedTopics.contains t.id && decide (lvl < t.level))
  if 0 < children.length then
    (children.foldl (fun sum c => sum + posY m c.id) 0) / (children.length : ℚ)
  else posY m node.id

/-- One forward-pass step at level `lvl`: weight each bucket node, stably
re-sort the bucket by weight ascending and re-space the column. -/
def forwardPass (topics : List Topic) (height : ℚ) (lvl : Nat) (m : PosMap) : PosMap :=
  let nodesWithWeight :=
    (levelNodes topics lvl).map (fun node => (node, forwardWeight topics lvl m node))
  applySpacing height ((sortByKey Prod.snd nodesWithWeight).map Prod.fst) (colX lvl) m

/-- One backward-pass step at level `lvl`: same with children weights. -/
def backwardPass (topics : List Topic) (height : ℚ) (lvl : Nat) (m : PosMap) : PosMap :=
  let nodesWithWeight :=
    (levelNodes topics lvl).map (fun node => (node, backwardWeight topics lvl m node))
  applySpacing height ((sortByKey Prod.snd nodesWithWeight).map Prod.fst) (colX lvl) m

/-- One refinement sweep: a forward pass over levels `2 .. maxLevel` ascending,
then a backward pass over levels `maxLevel - 1 .. 1` descending. -/
def refineSweep (topics : List Topic) (height : ℚ) (m : PosMap) : PosMap :=
  let mx := maxLevel topics
  let afterForward := (List.range' 2 (mx - 1)).foldl (fun m lvl => forwardPass topics height lvl m) m
  ((List.range' 1 (mx - 1)).reverse).foldl (fun m lvl => backwardPass topics height lvl m) afterForward

/-- The full layout: initial positions followed by exactly ten refinement
sweeps (the `for (let i = 0; i < 10; i++)` loop). -/
def computeLayout (topics : List Topic) (height : ℚ) : PosMap :=
  (List.range 10).foldl (fun m _ => refineSweep topics height m) (initialPositions topics height)

/-! ### Spec-worded refinement sweep (for the refinement claim about the
ten-sweep loop) -/

/-- Second definition following the spec's words (§4.1 step 5a): the forward
sort weight is the arithmetic mean of the current y of the node's *parents* —
topics at a strictly lower level than the node whose `relatedTopics` include
the node's id — or the node's own current y when it has none. -/
def specForwardWeight (topics : List Topic) (m : PosMap) (node : Topic) : ℚ :=
  let parents :=
    topics.filter (fun p => decide (p.level < node.level) && p.relatedTopics.contains node.id)
  if 0 < parents.length then
    (parents.foldl (fun sum p => sum + posY m p.id) 0) / (parents.length : ℚ)
  else posY m node.id

/-- Second definition following the spec's words (§4.1 step 5b): the backward
sort weight uses the node's *children* — topics at a strictly higher level
than the node that the node's `relatedTopics` references. -/
def specBackwardWeight (topics : List Topic) (m : PosMap) (node : Topic) : ℚ :=
  let children :=
    topics.filter (fun t => decide (node.level < t.level) && node.relatedTopics.contains t.id)
  if 0 < children.length then
    (children.foldl (fun sum c => sum + posY m c.id) 0) / (children.length : ℚ)
  else posY m node.id

/-- Spec-worded forward pass at one level: re-sort the level by weight
ascending (stable) and reapply the spacing formula. -/
def specForwardPass (topics : List Topic) (height : ℚ) (lvl : Nat) (m : PosMap) : PosMap :=
  applySpacing height
    ((sortByKey Prod.snd
        ((levelNodes topics lvl).map (fun node => (node, specForwardWeight topics m node)))).map
      Prod.fst)
    (colX lvl) m

/-- Spec-worded backward pass at one level. -/
def specBackwardPass (topics : List Topic) (height : ℚ) (lvl : Nat) (m : PosMap) : PosMap :=
  applySpacing height
    ((sortByKey Prod.snd
        ((levelNodes topics lvl).map (fun node => (node, specBackwardWeight topics m node)))).map
      Prod.fst)
    (colX lvl) m

/-- Spec-worded sweep: forward over levels `2 .. maxLevel` ascending, then
backward over levels `maxLevel - 1 .. 1` descending. -/
def specSweep (topics : List Topic) (height : ℚ) (m : PosMap) : PosMap :=
  let mx := maxLevel topics
  let afterForward :=
    (List.range' 2 (mx - 1)).foldl (fun m lvl => specForwardPass topics height lvl m) m
  ((List.range' 1 (mx - 1)).reverse).foldl
    (fun m lvl => specBackwardPass topics height lvl m) afterForward

/-! ### Intermediate node objects, edges and ports -/

/-- The intermediate node object built in step 2a: the topic's fields spread
together with its looked-up position (falling back to `(0, 0)`), its progress
stats, and `complete := stats.percent === 100`. -/
structure Node extends Topic where
  x : ℚ
  y : ℚ
  stats : Stats
  complete : Bool
deriving DecidableEq, Repr

/-- Build one intermediate node from a topic. -/
def mkNode (completed : List String) (m : PosMap) (t : Topic) : Node :=
  let pos := (m t.id).getD (0, 0)
  let stats := getProgressStats completed t
  { toTopic := t, x := pos.1, y := pos.2, stats := stats,
    complete := decide (stats.percent = 100) }

/-- All intermediate nodes, positions taken from the computed layout. -/
def mkNodes (topics : List Topic) (completed : List String) (height : ℚ) : List Node :=
  topics.map (mkNode completed (computeLayout topics height))

/-- A directed edge of `allLinks` before port assignment. -/
structure Link where
  src : Node
  tgt : Node
  active : Bool
deriving DecidableEq, Repr

/-- The links emitted for one source node: for each id in `relatedTopics`,
look up the first node with that id; emit `(source, target, source.complete)`
only when the target exists and `source.level < target.level`. -/
def linksFrom (nodes : List Node) (source : Node) : List Link :=
  source.relatedTopics.filterMap (fun targetId =>
    match nodes.find? (fun n => n.id == targetId) with
    | some target =>
        if source.level < target.level then some ⟨source, target, source.complete⟩ else none
    | none => none)

/-- `allLinks` from TopicGraph.tsx step 2b. -/
def allLinks (nodes : List Node) : List Link :=
  (nodes.map (linksFrom nodes)).flatten

/-- Pair each element with its position, modelling object identity of the
link records while the port-sorting loops mutate them. -/
def enumKeys {α : Type} : Nat → List α → List (Nat × α)
  | _, [] => []
  | k, x :: xs => (k, x) :: enumKeys (k + 1) xs

/-- A link after the port-sorting loops of step 2c. -/
structure PortedLink where
  src : Node
  tgt : Node
  active : Bool
  sourceIndex : Nat
  sourceTotal : Nat
  targetIndex : Nat
  targetTotal : Nat
deriving DecidableEq, Repr

/-- The ported version of one link `q` (identified by its position key):
within the outgoing links of its source node sorted stably by target y it
receives its 0-based rank as `sourceIndex` and the outgoing count as
`sourceTotal`; symmetrically `targetIndex`/`targetTotal` over the incoming
links of its target sorted by source y. -/
def portLink (idx : List (Nat × Link)) (q : Nat × Link) : PortedLink :=
  let outgoing := idx.filter (fun r => r.2.src.id == q.2.src.id)
  let outSorted := sortByKey (fun r => r.2.tgt.y) outgoing
  let incoming := idx.filter (fun r => r.2.tgt.id == q.2.tgt.id)
  let incSorted := sortByKey (fun r => r.2.src.y) incoming
  { src := q.2.src, tgt := q.2.tgt, active := q.2.active,
    sourceIndex := outSorted.findIdx (fun r => r.1 == q.1),
    sourceTotal := outgoing.length,
    targetIndex := incSorted.findIdx (fun r => r.1 == q.1),
    targetTotal := incoming.length }

/-- Port assignment (step 2c), applying `portLink` to every position-tagged
link. -/
def assignPorts (links : List Link) : List PortedLink :=
  let idx := enumKeys 0 links
  idx.map (portLink idx)

/-! ### Layout-relevant projections (geometry without completion data) -/

/-- A node stripped of its completion data: what the geometry may depend on. -/
structure CoreNode extends Topic where
  x : ℚ
  y : ℚ
deriving DecidableEq, Repr

/-- Forget a node's stats and completion flag. -/
def Node.core (n : Node) : CoreNode := { toTopic := n.toTopic, x := n.x, y := n.y }

/-- A link stripped of its `active` flag and of completion data. -/
structure CoreLink where
  src : CoreNode
  tgt : CoreNode
deriving DecidableEq, Repr

/-- Forget a link's `active` flag and completion data. -/
def Link.core (l : Link) : CoreLink := ⟨l.src.core, l.tgt.core⟩

/-- The geometric content of a ported link: endpoints and port numbers,
without the `active` flag. -/
def PortedLink.geom (p : PortedLink) : CoreLink × Nat × Nat × Nat × Nat :=
  (⟨p.src.core, p.tgt.core⟩, p.sourceIndex, p.sourceTotal, p.targetIndex, p.targetTotal)

/-- Core-node builder: `mkNode` without the completion data. -/
def coreMkNode (m : PosMap) (t : Topic) : CoreNode :=
  let pos := (m t.id).getD (0, 0)
  { toTopic := t, x := pos.1, y := pos.2 }

/-- `linksFrom` on core nodes (no `active` flag to record). -/
def coreLinksFrom (nodes : List CoreNode) (source : CoreNode) : List CoreLink :=
  source.relatedTopics.filterMap (fun targetId =>
    match nodes.find? (fun n => n.id == targetId) with
    | some target =>
        if source.level < target.level then some ⟨source, target⟩ else none
    | none => none)

/-- `allLinks` on core nodes. -/
def coreAllLinks (nodes : List CoreNode) : List CoreLink :=
  (nodes.map (coreLinksFrom nodes)).flatten

/-- `portLink` on core links, producing the bare geometric record. -/
def corePortLink (idx : List (Nat × CoreLink)) (q : Nat × CoreLink) :
    CoreLink × Nat × Nat × Nat × Nat :=
  let outgoing := idx.filter (fun r => r.2.src.id == q.2.src.id)
  let outSorted := sortByKey (fun r => r.2.tgt.y) outgoing
  let incoming := idx.filter (fun r => r.2.tgt.id == q.2.tgt.id)
  let incSorted := sortByKey (fun r => r.2.src.y) incoming
  (q.2, outSorted.findIdx (fun r => r.1 == q.1), outgoing.length,
    incSorted.findIdx (fun r => r.1 == q.1), incoming.length)

/-- `assignPorts` on core links. -/
def coreAssignPorts (links : List CoreLink) : List (CoreLink × Nat × Nat × Nat × Nat) :=
  let idx := enumKeys 0 links
  idx.map (corePortLink idx)

/-! ### Rendering opacity and the filter (instructor-filter variant) -/

/-- Link opacity in the filter variant: `0.1` when either endpoint's teacher
is hidden, else `1` for active and `0.5` for inactive links. -/
def linkOpacity (hidden : List String) (l : PortedLink) : ℚ :=
  if hidden.contains l.src.teacher || hidden.contains l.tgt.teacher then 1 / 10
  else if l.active then 1 else 1 / 2

/-- Node opacity in the filter variant: `0.2` when its teacher is hidden. -/
def nodeOpacity (hidden : List String) (n : Node) : ℚ :=
  if hidden.contains n.teacher then 1 / 5 else 1

/-- The data handed to the renderer: the intermediate nodes and the ported
links, each link paired with its rendering opacity under the current
instructor filter. -/
def renderModel (topics : List Topic) (completed : List String) (hidden : List String)
    (height : ℚ) : List Node × List (PortedLink × ℚ) :=
  let nodes := mkNodes topics completed height
  let ported := assignPorts (allLinks nodes)
  (nodes, ported.map (fun l => (l, linkOpacity hidden l)))

/-! ### Viewport transform -/

/-- A d3 zoom transform `translate(x, y).scale(k)`: a world point `p` maps to
screen `k * p + (x, y)`. -/
structure Transform where
  x : ℚ
  y : ℚ
  k : ℚ
deriving DecidableEq, Repr

/-- `d3.zoomIdentity`. -/
def zoomIdentity : Transform := ⟨0, 0, 1⟩

/-- `isZoomIdentity` from the filter variant:
`t.k === 1 && t.x === 0 && t.y === 0`. -/
def isZoomIdentity (t : Transform) : Bool :=
  decide (t.k = 1) && decide (t.x = 0) && decide (t.y = 0)

/-- `d3.min(nodes, d => d.x) || 0`: a running minimum over the list, 0 when
the list is empty (in d3, `min` of an empty selection is `undefined`, which
`|| 0` turns into 0). -/
def bboxMinX (nodes : List Node) : ℚ :=
  match nodes.map Node.x with
  | [] => 0
  | v :: vs => vs.foldl min v

/-- `d3.max(nodes, d => d.x + NODE_WIDTH) || 0`. -/
def bboxMaxX (nodes : List Node) : ℚ :=
  match nodes.map (fun d => d.x + NODE_WIDTH) with
  | [] => 0
  | v :: vs => vs.foldl max v

/-- `d3.min(nodes, d => d.y) || 0`. -/
def bboxMinY (nodes : List Node) : ℚ :=
  match nodes.map Node.y with
  | [] => 0
  | v :: vs => vs.foldl min v

/-- `d3.max(nodes, d => d.y + NODE_HEIGHT) || 0`. -/
def bboxMaxY (nodes : List Node) : ℚ :=
  match nodes.map (fun d => d.y + NODE_HEIGHT) with
  | [] => 0
  | v :: vs => vs.foldl max v

/-- The initial fit transform: scale `min(availableWidth/graphWidth,
availableHeight/graphHeight)` clamped first to at most 1 and then to at least
0.1, translating the bounding-box center to the viewport center. -/
def initialTransform (nodes : List Node) (width height : ℚ) : Transform :=
  let minX := bboxMinX nodes
  let maxX := bboxMaxX nodes
  let minY := bboxMinY nodes
  let maxY := bboxMaxY nodes
  let graphWidth := maxX - minX
  let graphHeight := maxY - minY
  let padding : ℚ := 100
  let availableWidth := width - padding * 2
  let availableHeight := height - padding * 2
  let scale0 := min (availableWidth / graphWidth) (availableHeight / graphHeight)
  let scale1 := if 1 < scale0 then 1 else scale0
  let scale := if scale1 < 1 / 10 then 1 / 10 else scale1
  let centerX := (minX + maxX) / 2
  let centerY := (minY + maxY) / 2
  ⟨width / 2 - scale * centerX, height / 2 - scale * centerY, scale⟩

/-- The transform actually applied on a re-layout in the filter variant:
the freshly computed initial fit only when the running transform is still the
identity, otherwise the user's current transform unchanged. -/
def appliedTransform (current : Transform) (nodes : List Node) (width height : ℚ) : Transform :=
  if isZoomIdentity current then initialTransform nodes width height else current

/-- Seven topics, one per level 1..7, spanning a 3240-unit-wide graph:
wide enough that the 0.1 lower clamp of the fit scale engages for a
300-pixel-wide viewport. -/
def wideTopics : List Topic :=
  [⟨"a", 1, [], [], "t"⟩, ⟨"b", 2, [], [], "t"⟩, ⟨"c", 3, [], [], "t"⟩,
   ⟨"d", 4, [], [], "t"⟩, ⟨"e", 5, [], [], "t"⟩, ⟨"f", 6, [], [], "t"⟩,
   ⟨"g", 7, [], [], "t"⟩]

/-! ### General helpers -/

theorem insertByKey_perm {α : Type} (key : α → ℚ) (x : α) (l : List α) :
    (insertByKey key x l).Perm (x :: l) := by
  induction l with
  | nil => simp [insertByKey]
  | cons y ys ih =>
    simp only [insertByKey]
    split
    · exact ((ih.cons y).trans (List.Perm.swap x y ys))
    · exact List.Perm.refl _

theorem sortByKey_perm {α : Type} (key : α → ℚ) (l : List α) :
    (sortByKey key l).Perm l := by
  induction l with
  | nil => simp [sortByKey]
  | cons x xs ih =>
    exact (insertByKey_perm key x (sortByKey key xs)).trans (ih.cons x)

theorem mem_sortByKey {α : Type} (key : α → ℚ) (l : List α) (a : α) :
    a ∈ sortByKey key l ↔ a ∈ l :=
  (sortByKey_perm key l).mem_iff

theorem length_sortByKey {α : Type} (key : α → ℚ) (l : List α) :
    (sortByKey key l).length = l.length :=
  (sortByKey_perm key l).length_eq

theorem insertByKey_pairwise {α : Type} (key : α → ℚ) (x : α) (l : List α)
    (h : l.Pairwise (fun a b => key a ≤ key b)) :
    (insertByKey key x l).Pairwise (fun a b => key a ≤ key b) := by
  induction l with
  | nil => simp [insertByKey]
  | cons y ys ih =>
    simp only [insertByKey]
    rcases h with - | ⟨hy, hys⟩
    split
    · rename_i hlt
      refine List.Pairwise.cons ?_ (ih hys)
      intro b hb
      rcases List.mem_cons.mp ((insertByKey_perm key x ys).mem_iff.mp hb) with hb | hb
      · subst hb; exact le_of_lt hlt
      · exact hy b hb
    · rename_i hnlt
      refine List.Pairwise.cons ?_ (List.Pairwise.cons hy hys)
      intro b hb
      rcases List.mem_cons.mp hb with hb | hb
      · subst hb; exact le_of_not_lt hnlt
      · exact le_trans (le_of_not_lt hnlt) (hy b hb)

theorem sortByKey_pairwise {α : Type} (key : α → ℚ) (l : List α) :
    (sortByKey key l).Pairwise (fun a b => key a ≤ key b) := by
  induction l with
  | nil => simp [sortByKey]
  | cons x xs ih => exact insertByKey_pairwise key x _ ih

/-- Inserting an element whose key is a lower bound of the list prepends it. -/
theorem insertByKey_of_le {α : Type} (key : α → ℚ) (x : α) (l : List α)
    (h : ∀ b ∈ l, key x ≤ key b) : insertByKey key x l = x :: l := by
  cases l with
  | nil => rfl
  | cons y ys =>
    simp only [insertByKey]
    rw [if_neg (not_lt.mpr (h y (by simp)))]

/-- Stability on sorted inputs: a list already sorted (weakly) by the key is
left unchanged, so tied elements keep their relative input order. -/
theorem sortByKey_of_pairwise {α : Type} (key : α → ℚ) (l : List α)
    (h : l.Pairwise (fun a b => key a ≤ key b)) : sortByKey key l = l := by
  induction l with
  | nil => rfl
  | cons x xs ih =>
    rcases h with - | ⟨hx, hxs⟩
    simp only [sortByKey]
    rw [ih hxs]
    exact insertByKey_of_le key x xs hx

theorem insertByKey_map {α β : Type} (key : α → ℚ) (key' : β → ℚ) (f : α → β)
    (hk : ∀ a, key' (f a) = key a) (x : α) (l : List α) :
    (insertByKey key x l).map f = insertByKey key' (f x) (l.map f) := by
  induction l with
  | nil => rfl
  | cons y ys ih =>
    simp only [insertByKey, List.map_cons, hk]
    split
    · simp [List.map_cons, ih]
    · simp [List.map_cons]

/-- The stable sort commutes with mapping along a key-preserving function. -/
theorem sortByKey_map {α β : Type} (key : α → ℚ) (key' : β → ℚ) (f : α → β)
    (hk : ∀ a, key' (f a) = key a) (l : List α) :
    (sortByKey key l).map f = sortByKey key' (l.map f) := by
  induction l with
  | nil => rfl
  | cons x xs ih =>
    simp only [sortByKey, insertByKey_map key key' f hk, ih]


theorem foldl_preserves {α : Type _} {β : Type _} (P : α → Prop) (step : α → β → α)
    (h : ∀ a b, P a → P (step a b)) :
    ∀ (L : List β) (a : α), P a → P (L.foldl step a) := by
  intro L
  induction L with
  | nil => intro a ha; exact ha
  | cons b L ih => intro a ha; exact ih _ (h a b ha)

theorem foldl_const_iterate {α β : Type _} (f : α → α) :
    ∀ (L : List β) (a : α), L.foldl (fun acc _ => f acc) a = f^[L.length] a := by
  intro L
  induction L with
  | nil => intro a; rfl
  | cons b L ih =>
    intro a
    simp only [List.foldl_cons, List.length_cons, ih, Function.iterate_succ_apply]

theorem PosMap.set_self (m : PosMap) (id : String) (p : ℚ × ℚ) :
    (PosMap.set m id p) id = some p := by
  simp [PosMap.set]

theorem PosMap.set_ne (m : PosMap) (id : String) (p : ℚ × ℚ) (k : String) (h : k ≠ id) :
    (PosMap.set m id p) k = m k := by
  simp [PosMap.set, h]

theorem mem_levelNodes {topics : List Topic} {lvl : Nat} {n : Topic} :
    n ∈ levelNodes topics lvl ↔ n ∈ topics ∧ n.level = lvl := by
  simp [levelNodes]

theorem le_foldl_max : ∀ (L : List Topic) (acc : Nat),
    acc ≤ L.foldl (fun m t => max m t.level) acc := by
  intro L
  induction L with
  | nil => intro acc; exact le_refl _
  | cons hd tl ih => intro acc; exact le_trans (le_max_left _ _) (ih _)

theorem mem_le_foldl_max : ∀ (L : List Topic) (t : Topic) (acc : Nat), t ∈ L →
    t.level ≤ L.foldl (fun m t => max m t.level) acc := by
  intro L
  induction L with
  | nil => intro t acc ht; cases ht
  | cons hd tl ih =>
    intro t acc ht
    rcases List.mem_cons.mp ht with ht | ht
    · subst ht; exact le_trans (le_max_right _ _) (le_foldl_max tl _)
    · exact ih t _ ht

theorem level_le_maxLevel {topics : List Topic} {t : Topic} (ht : t ∈ topics) :
    t.level ≤ maxLevel topics :=
  mem_le_foldl_max topics t 0 ht

/-! ### applySpacing lemmas -/

theorem applySpacingAux_not_mem (sX sY : ℚ) :
    ∀ (ns : List Topic) (k : Nat) (m : PosMap) (id : String),
      id ∉ ns.map Topic.id → applySpacingAux sX sY k ns m id = m id := by
  intro ns
  induction ns with
  | nil => intro k m id _; rfl
  | cons n tl ih =>
    intro k m id h
    simp only [List.map_cons, List.mem_cons, not_or] at h
    simp only [applySpacingAux]
    rw [ih _ _ _ h.2, PosMap.set_ne _ _ _ _ h.1]

theorem applySpacingAux_isSome (sX sY : ℚ) :
    ∀ (ns : List Topic) (k : Nat) (m : PosMap) (id : String),
      (m id).isSome → ((applySpacingAux sX sY k ns m) id).isSome := by
  intro ns
  induction ns with
  | nil => intro k m id h; exact h
  | cons n tl ih =>
    intro k m id h
    simp only [applySpacingAux]
    apply ih
    by_cases hid : id = n.id
    · subst hid; rw [PosMap.set_self]; rfl
    · rw [PosMap.set_ne _ _ _ _ hid]; exact h

theorem applySpacingAux_mem_isSome (sX sY : ℚ) :
    ∀ (ns : List Topic) (k : Nat) (m : PosMap) (n : Topic), n ∈ ns →
      ((applySpacingAux sX sY k ns m) n.id).isSome := by
  intro ns
  induction ns with
  | nil => intro k m n hn; cases hn
  | cons hd tl ih =>
    intro k m n hn
    rcases List.mem_cons.mp hn with hn | hn
    · subst hn
      simp only [applySpacingAux]
      apply applySpacingAux_isSome
      rw [PosMap.set_self]; rfl
    · exact ih _ _ _ hn

theorem applySpacing_isSome (height : ℚ) (ns : List Topic) (sX : ℚ) (m : PosMap) (id : String)
    (h : (m id).isSome) : ((applySpacing height ns sX m) id).isSome :=
  applySpacingAux_isSome _ _ _ _ _ _ h

theorem applySpacingAux_get (sX sY : ℚ) :
    ∀ (ns : List Topic) (k : Nat) (m : PosMap) (i : Nat) (hi : i < ns.length),
      (ns.map Topic.id).Nodup →
      applySpacingAux sX sY k ns m ((ns.get ⟨i, hi⟩).id) =
        some (sX, sY + ((k + i : Nat) : ℚ) * NODE_SPACING) := by
  intro ns
  induction ns with
  | nil => intro k m i hi; exact absurd hi (by simp)
  | cons n tl ih =>
    intro k m i hi hnd
    simp only [List.map_cons, List.nodup_cons] at hnd
    cases i with
    | zero =>
      simp only [applySpacingAux, List.get]
      rw [applySpacingAux_not_mem _ _ _ _ _ _ hnd.1, PosMap.set_self]
      norm_num
    | succ j =>
      simp only [applySpacingAux, List.get]
      have hj : j < tl.length := by simpa using hi
      rw [ih (k + 1) _ j hj hnd.2]
      have hkj : (k + 1 + j : Nat) = k + (j + 1) := by omega
      rw [hkj]

/-- The y-formula of `applySpacing`: node `i` of a duplicate-free column of
`N` nodes lands at `(startX, height/2 - N*280/2 + 140 + i*280)`. -/
theorem applySpacing_get (height : ℚ) (ns : List Topic) (startX : ℚ) (m : PosMap)
    (i : Nat) (hi : i < ns.length) (hnd : (ns.map Topic.id).Nodup) :
    applySpacing height ns startX m ((ns.get ⟨i, hi⟩).id) =
      some (startX, height / 2 - ((ns.length : ℚ) * NODE_SPACING) / 2 + 140 + (i : ℚ) * NODE_SPACING) := by
  unfold applySpacing
  rw [applySpacingAux_get _ _ _ _ _ _ hi hnd]
  have : ((0 + i : Nat) : ℚ) = (i : ℚ) := by norm_num
  rw [this]
  have h140 : NODE_SPACING / 2 = (140 : ℚ) := by norm_num [NODE_SPACING]
  rw [h140]

/-! ### The column invariant: stored x-coordinates always match the level -/

/-- Every position stored for a topic sits in that topic's level column. -/
def XInv (topics : List Topic) (m : PosMap) : Prop :=
  ∀ t ∈ topics, ∀ p : ℚ × ℚ, m t.id = some p → p.1 = colX t.level

theorem applySpacingAux_XInv {topics : List Topic} (hnd : (topics.map Topic.id).Nodup)
    (sY : ℚ) (lvl : Nat) :
    ∀ (ns : List Topic) (k : Nat) (m : PosMap),
      (∀ n ∈ ns, n ∈ topics ∧ n.level = lvl) → XInv topics m →
      XInv topics (applySpacingAux (colX lvl) sY k ns m) := by
  intro ns
  induction ns with
  | nil => intro k m _ hm; exact hm
  | cons n tl ih =>
    intro k m hns hm
    simp only [applySpacingAux]
    apply ih (k + 1) _ (fun a ha => hns a (List.mem_cons_of_mem _ ha))
    intro t ht p hp
    by_cases hid : t.id = n.id
    · obtain ⟨hnt, hnl⟩ := hns n (List.mem_cons_self n tl)
      have htn : t = n := List.inj_on_of_nodup_map hnd ht hnt hid
      rw [hid, PosMap.set_self] at hp
      cases hp
      rw [htn, hnl]
    · rw [PosMap.set_ne _ _ _ _ hid] at hp
      exact hm t ht p hp

theorem applySpacing_XInv {topics : List Topic} (hnd : (topics.map Topic.id).Nodup)
    (height : ℚ) (lvl : Nat) (ns : List Topic) (m : PosMap)
    (hns : ∀ n ∈ ns, n ∈ topics ∧ n.level = lvl) (hm : XInv topics m) :
    XInv topics (applySpacing height ns (colX lvl) m) :=
  applySpacingAux_XInv hnd _ lvl ns 0 m hns hm

theorem mem_of_mem_sorted {L : List Topic} {w : Topic → ℚ} {a : Topic}
    (h : a ∈ (sortByKey Prod.snd (L.map (fun n => (n, w n)))).map Prod.fst) : a ∈ L := by
  obtain ⟨q, hq, hqa⟩ := List.mem_map.mp h
  obtain ⟨n, hn, hnq⟩ := List.mem_map.mp ((mem_sortByKey _ _ q).mp hq)
  subst hqa
  rw [← hnq]
  exact hn

theorem forwardPass_XInv {topics : List Topic} (hnd : (topics.map Topic.id).Nodup)
    (height : ℚ) (lvl : Nat) (m : PosMap) (hm : XInv topics m) :
    XInv topics (forwardPass topics height lvl m) := by
  apply applySpacing_XInv hnd
  · intro n hn
    exact mem_levelNodes.mp (mem_of_mem_sorted hn)
  · exact hm

theorem backwardPass_XInv {topics : List Topic} (hnd : (topics.map Topic.id).Nodup)
    (height : ℚ) (lvl : Nat) (m : PosMap) (hm : XInv topics m) :
    XInv topics (backwardPass topics height lvl m) := by
  apply applySpacing_XInv hnd
  · intro n hn
    exact mem_levelNodes.mp (mem_of_mem_sorted hn)
  · exact hm

theorem initialPositions_XInv {topics : List Topic} (hnd : (topics.map Topic.id).Nodup)
    (height : ℚ) : XInv topics (initialPositions topics height) := by
  unfold initialPositions
  apply foldl_preserves (XInv topics)
  · intro m l hm
    exact applySpacing_XInv hnd height (l + 1) _ m (fun n hn => mem_levelNodes.mp hn) hm
  · intro t _ p hp
    exact absurd hp (by simp [emptyPos])

theorem refineSweep_XInv {topics : List Topic} (hnd : (topics.map Topic.id).Nodup)
    (height : ℚ) (m : PosMap) (hm : XInv topics m) :
    XInv topics (refineSweep topics height m) := by
  unfold refineSweep
  apply foldl_preserves (XInv topics)
  · intro m l hm'; exact backwardPass_XInv hnd height l m hm'
  · apply foldl_preserves (XInv topics)
    · intro m l hm'; exact forwardPass_XInv hnd height l m hm'
    · exact hm

theorem computeLayout_XInv {topics : List Topic} (hnd : (topics.map Topic.id).Nodup)
    (height : ℚ) : XInv topics (computeLayout topics height) := by
  unfold computeLayout
  apply foldl_preserves (XInv topics)
  · intro m _ hm; exact refineSweep_XInv hnd height m hm
  · exact initialPositions_XInv hnd height

/-! ### Totality of the position map on positive-level topics -/

theorem forwardPass_isSome (topics : List Topic) (height : ℚ) (lvl : Nat) (m : PosMap)
    (id : String) (h : (m id).isSome) : ((forwardPass topics height lvl m) id).isSome :=
  applySpacing_isSome _ _ _ _ _ h

theorem backwardPass_isSome (topics : List Topic) (height : ℚ) (lvl : Nat) (m : PosMap)
    (id : String) (h : (m id).isSome) : ((backwardPass topics height lvl m) id).isSome :=
  applySpacing_isSome _ _ _ _ _ h

theorem refineSweep_isSome (topics : List Topic) (height : ℚ) (m : PosMap)
    (id : String) (h : (m id).isSome) : ((refineSweep topics height m) id).isSome := by
  unfold refineSweep
  apply foldl_preserves (fun m : PosMap => (m id).isSome)
  · intro m l hm; exact backwardPass_isSome topics height l m id hm
  · apply foldl_preserves (fun m : PosMap => (m id).isSome)
    · intro m l hm; exact forwardPass_isSome topics height l m id hm
    · exact h

theorem initialPositions_isSome {topics : List Topic} (height : ℚ) {t : Topic}
    (ht : t ∈ topics) (hl : 1 ≤ t.level) :
    ((initialPositions topics height) t.id).isSome := by
  unfold initialPositions
  have key : ∀ (L : List Nat) (m : PosMap),
      ((∃ l ∈ L, t ∈ levelNodes topics (l + 1)) ∨ (m t.id).isSome) →
      ((L.foldl (fun m l => applySpacing height (levelNodes topics (l + 1)) (colX (l + 1)) m) m)
          t.id).isSome := by
    intro L
    induction L with
    | nil =>
      intro m h
      rcases h with ⟨l, hl, _⟩ | h
      · cases hl
      · exact h
    | cons l L ih =>
      intro m h
      simp only [List.foldl_cons]
      by_cases hm : t ∈ levelNodes topics (l + 1)
      · exact ih _ (Or.inr (applySpacingAux_mem_isSome _ _ _ _ _ _ hm))
      · rcases h with ⟨l', hl', htl'⟩ | h
        · rcases List.mem_cons.mp hl' with rfl | hl'
          · exact absurd htl' hm
          · exact ih _ (Or.inl ⟨l', hl', htl'⟩)
        · exact ih _ (Or.inr (applySpacing_isSome _ _ _ _ _ h))
  apply key
  left
  refine ⟨t.level - 1, ?_, ?_⟩
  · have := level_le_maxLevel ht
    exact List.mem_range.mpr (by omega)
  · have : t.level - 1 + 1 = t.level := by omega
    rw [this]
    exact mem_levelNodes.mpr ⟨ht, rfl⟩

theorem computeLayout_isSome {topics : List Topic} (height : ℚ) {t : Topic}
    (ht : t ∈ topics) (hl : 1 ≤ t.level) :
    ((computeLayout topics height) t.id).isSome := by
  unfold computeLayout
  apply foldl_preserves (fun m : PosMap => (m t.id).isSome)
  · intro m _ hm; exact refineSweep_isSome topics height m t.id hm
  · exact initialPositions_isSome height ht hl

/-- The final position of every positive-level topic sits in its level's
column `colX t.level`. -/
theorem layout_x_column {topics : List Topic} (height : ℚ)
    (hlev : ∀ t ∈ topics, 1 ≤ t.level) (hnd : (topics.map Topic.id).Nodup) :
    ∀ t ∈ topics, ∃ y : ℚ, computeLayout topics height t.id = some (colX t.level, y) := by
  intro t ht
  obtain ⟨p, hp⟩ := Option.isSome_iff_exists.mp (computeLayout_isSome height ht (hlev t ht))
  have hx := computeLayout_XInv hnd height t ht p hp
  refine ⟨p.2, ?_⟩
  rw [hp, show p = (colX t.level, p.2) from Prod.ext hx rfl]

theorem colX_lt {a b : Nat} (h : a < b) : colX a < colX b := by
  unfold colX LEVEL_SPACING
  have : (a : ℚ) < (b : ℚ) := by exact_mod_cast h
  linarith

theorem forwardPass_eq_spec (topics : List Topic) (height : ℚ) (lvl : Nat) (m : PosMap) :
    forwardPass topics height lvl m = specForwardPass topics height lvl m := by
  unfold forwardPass specForwardPass
  have hmap : (levelNodes topics lvl).map (fun node => (node, forwardWeight topics lvl m node)) =
      (levelNodes topics lvl).map (fun node => (node, specForwardWeight topics m node)) := by
    apply List.map_congr_left
    intro node hn
    have hl : node.level = lvl := (mem_levelNodes.mp hn).2
    simp only [forwardWeight, specForwardWeight, hl]
    rw [List.filter_congr (fun p _ => Bool.and_comm _ _)]
  rw [hmap]

theorem backwardPass_eq_spec (topics : List Topic) (height : ℚ) (lvl : Nat) (m : PosMap) :
    backwardPass topics height lvl m = specBackwardPass topics height lvl m := by
  unfold backwardPass specBackwardPass
  have hmap : (levelNodes topics lvl).map (fun node => (node, backwardWeight topics lvl m node)) =
      (levelNodes topics lvl).map (fun node => (node, specBackwardWeight topics m node)) := by
    apply List.map_congr_left
    intro node hn
    have hl : node.level = lvl := (mem_levelNodes.mp hn).2
    simp only [backwardWeight, specBackwardWeight, hl]
    rw [List.filter_congr (fun p _ => Bool.and_comm _ _)]
  rw [hmap]

theorem refineSweep_eq_spec (topics : List Topic) (height : ℚ) :
    refineSweep topics height = specSweep topics height := by
  funext m
  unfold refineSweep specSweep
  rw [show (fun (m : PosMap) lvl => forwardPass topics height lvl m) =
        (fun (m : PosMap) lvl => specForwardPass topics height lvl m) from
      funext fun m => funext fun lvl => forwardPass_eq_spec topics height lvl m,
    show (fun (m : PosMap) lvl => backwardPass topics height lvl m) =
        (fun (m : PosMap) lvl => specBackwardPass topics height lvl m) from
      funext fun m => funext fun lvl => backwardPass_eq_spec topics height lvl m]

/-! ### enumKeys and rank lemmas (for port assignment) -/

theorem enumKeys_map_fst {α : Type} :
    ∀ (k : Nat) (l : List α), (enumKeys k l).map Prod.fst = List.range' k l.length := by
  intro k l
  induction l generalizing k with
  | nil => rfl
  | cons x xs ih => simp [enumKeys, ih, List.range'_succ]

theorem enumKeys_map_snd {α : Type} :
    ∀ (k : Nat) (l : List α), (enumKeys k l).map Prod.snd = l := by
  intro k l
  induction l generalizing k with
  | nil => rfl
  | cons x xs ih => simp [enumKeys, ih]

theorem enumKeys_map {α β : Type} (f : α → β) :
    ∀ (k : Nat) (l : List α), enumKeys k (l.map f) = (enumKeys k l).map (Prod.map id f) := by
  intro k l
  induction l generalizing k with
  | nil => rfl
  | cons x xs ih => simp [enumKeys, ih, Prod.map]

theorem enumKeys_fst_nodup {α : Type} (k : Nat) (l : List α) :
    ((enumKeys k l).map Prod.fst).Nodup := by
  rw [enumKeys_map_fst]
  exact List.nodup_range' k l.length

/-- Mapping each element of a duplicate-free-key list to the index found for
its key recovers exactly the positions `0, ..., length - 1`. -/
theorem findIdx_self_map {β : Type} :
    ∀ (S : List (Nat × β)), (S.map Prod.fst).Nodup →
      S.map (fun q => S.findIdx (fun r => r.1 == q.1)) = List.range S.length := by
  intro S
  induction S with
  | nil => intro _; rfl
  | cons x xs ih =>
    intro hnd
    simp only [List.map_cons, List.nodup_cons] at hnd
    have hhead : List.findIdx (fun r => r.1 == x.1) (x :: xs) = 0 := by
      rw [List.findIdx_cons]
      simp
    have htail : xs.map (fun q => List.findIdx (fun r => r.1 == q.1) (x :: xs)) =
        (xs.map (fun q => List.findIdx (fun r => r.1 == q.1) xs)).map (fun i => i + 1) := by
      rw [List.map_map]
      apply List.map_congr_left
      intro q hq
      have hne : (x.1 == q.1) = false := by
        have : x.1 ≠ q.1 := fun h => hnd.1 (h ▸ List.mem_map_of_mem Prod.fst hq)
        simpa using this
      simp [List.findIdx_cons, hne]
    simp only [List.map_cons, hhead, htail, ih hnd.2, List.length_cons,
      List.range_succ_eq_map]

theorem rank_perm_range {β : Type} (key : Nat × β → ℚ) (l : List (Nat × β))
    (hnd : (l.map Prod.fst).Nodup) :
    (l.map (fun q => (sortByKey key l).findIdx (fun r => r.1 == q.1))).Perm
      (List.range l.length) := by
  have hperm := sortByKey_perm key l
  have hSnd : ((sortByKey key l).map Prod.fst).Nodup := ((hperm.map Prod.fst).nodup_iff).mpr hnd
  have hself := findIdx_self_map (sortByKey key l) hSnd
  have h1 : (l.map (fun q => (sortByKey key l).findIdx (fun r => r.1 == q.1))).Perm
      ((sortByKey key l).map (fun q => (sortByKey key l).findIdx (fun r => r.1 == q.1))) :=
    (hperm.map _).symm
  rw [hself, length_sortByKey] at h1
  exact h1

theorem rank_lt_length {β : Type} (key : Nat × β → ℚ) (l : List (Nat × β)) {q : Nat × β}
    (hq : q ∈ l) :
    (sortByKey key l).findIdx (fun r => r.1 == q.1) < (sortByKey key l).length :=
  List.findIdx_lt_length_of_exists ⟨q, (mem_sortByKey key l q).mpr hq, by simp⟩

theorem getElem_rank {β : Type} (key : Nat × β → ℚ) (l : List (Nat × β))
    (hnd : (l.map Prod.fst).Nodup) {q : Nat × β} (hq : q ∈ l)
    (hlt : (sortByKey key l).findIdx (fun r => r.1 == q.1) < (sortByKey key l).length) :
    (sortByKey key l)[(sortByKey key l).findIdx (fun r => r.1 == q.1)] = q := by
  have hkey := @List.findIdx_getElem _ (fun r => r.1 == q.1) (sortByKey key l) hlt
  have hmem : (sortByKey key l)[(sortByKey key l).findIdx (fun r => r.1 == q.1)] ∈ l :=
    (mem_sortByKey key l _).mp (List.getElem_mem hlt)
  exact List.inj_on_of_nodup_map hnd hmem hq (by simpa using hkey)

theorem rank_le_key {β : Type} (key : Nat × β → ℚ) (l : List (Nat × β))
    (hnd : (l.map Prod.fst).Nodup) {q1 q2 : Nat × β} (h1 : q1 ∈ l) (h2 : q2 ∈ l)
    (hlt : (sortByKey key l).findIdx (fun r => r.1 == q1.1) <
      (sortByKey key l).findIdx (fun r => r.1 == q2.1)) :
    key q1 ≤ key q2 := by
  have hl1 := rank_lt_length key l h1
  have hl2 := rank_lt_length key l h2
  have hp := sortByKey_pairwise key l
  have := List.pairwise_iff_get.mp hp ⟨_, hl1⟩ ⟨_, hl2⟩ hlt
  rwa [List.get_eq_getElem, List.get_eq_getElem, getElem_rank key l hnd h1 hl1,
    getElem_rank key l hnd h2 hl2] at this

/-! ### Link membership and node facts -/

theorem linksFrom_mem {nodes : List Node} {source : Node} {l : Link} :
    l ∈ linksFrom nodes source ↔
      ∃ tid ∈ source.relatedTopics, ∃ tg : Node,
        nodes.find? (fun n => n.id == tid) = some tg ∧ source.level < tg.level ∧
          l = ⟨source, tg, source.complete⟩ := by
  unfold linksFrom
  rw [List.mem_filterMap]
  constructor
  · rintro ⟨tid, htid, hf⟩
    refine ⟨tid, htid, ?_⟩
    rcases hfind : nodes.find? (fun n => n.id == tid) with _ | tg
    · simp only [hfind] at hf
      exact Option.noConfusion hf
    · simp only [hfind] at hf
      by_cases hlt : source.level < tg.level
      · rw [if_pos hlt] at hf
        exact ⟨tg, hfind, hlt, (Option.some_inj.mp hf).symm⟩
      · rw [if_neg hlt] at hf
        exact Option.noConfusion hf
  · rintro ⟨tid, htid, tg, hfind, hlt, rfl⟩
    exact ⟨tid, htid, by rw [hfind]; exact if_pos hlt⟩

theorem mem_allLinks {nodes : List Node} {l : Link} :
    l ∈ allLinks nodes ↔ ∃ s ∈ nodes, l ∈ linksFrom nodes s := by
  simp [allLinks, List.mem_flatten]

theorem complete_eq_isComplete (completed : List String) (t : Topic) :
    decide ((getProgressStats completed t).percent = 100) = isComplete completed t := by
  unfold isComplete
  by_cases h : t.subTopics.length = 0
  · have h0 : getProgressStats completed t = ⟨0, 0, 0⟩ := by simp [getProgressStats, h]
    rw [h0]
    norm_num
  · have hpos : 0 < (getProgressStats completed t).total := by
      simp only [getProgressStats, if_neg h]
      exact Nat.pos_of_ne_zero h
    simp [hpos]

theorem mkNodes_map_id (topics : List Topic) (completed : List String) (height : ℚ) :
    (mkNodes topics completed height).map (fun n => n.id) = topics.map Topic.id := by
  unfold mkNodes
  rw [List.map_map]
  exact List.map_congr_left (fun t _ => rfl)

theorem node_complete {topics : List Topic} {completed : List String} {height : ℚ} {s : Node}
    (hs : s ∈ mkNodes topics completed height) :
    s.complete = isComplete completed s.toTopic := by
  obtain ⟨t0, _, rfl⟩ := List.mem_map.mp hs
  exact complete_eq_isComplete completed t0

/-! ### Claim theorems -/

/-- C3: with duplicate-free ids and positive levels, every topic's final
x-coordinate is `100 + (level - 1) * 500`; consequently two topics at the
same level share x and x is strictly increasing in level; and in the
two-topic scenario `A(level=1) → B(level=2)` the layout puts A at x=100 and
B at x=600. -/
theorem claim_C3 (topics : List Topic) (height : ℚ)
    (hlev : ∀ t ∈ topics, 1 ≤ t.level) (hnd : (topics.map Topic.id).Nodup) :
    (∀ t ∈ topics, ∃ y : ℚ, computeLayout topics height t.id = some (colX t.level, y))
    ∧ (∀ (completed : List String), ∀ n ∈ mkNodes topics completed height, n.x = colX n.level)
    ∧ (∀ (completed : List String), ∀ n1 n2, n1 ∈ mkNodes topics completed height →
        n2 ∈ mkNodes topics completed height →
        (n1.level = n2.level → n1.x = n2.x) ∧ (n1.level < n2.level → n1.x < n2.x))
    ∧ ((computeLayout [⟨"a", 1, ["b"], [], "t"⟩, ⟨"b", 2, [], [], "t"⟩] 800 "a").map Prod.fst
        = some 100
      ∧ (computeLayout [⟨"a", 1, ["b"], [], "t"⟩, ⟨"b", 2, [], [], "t"⟩] 800 "b").map Prod.fst
        = some 600) := by
  have hx := layout_x_column height hlev hnd
  have hnode : ∀ (completed : List String), ∀ n ∈ mkNodes topics completed height,
      n.x = colX n.level := by
    intro completed n hn
    obtain ⟨t, ht, rfl⟩ := List.mem_map.mp hn
    obtain ⟨y, hy⟩ := hx t ht
    simp [mkNode, hy]
  refine ⟨hx, hnode, ?_, ?_⟩
  · intro completed n1 n2 h1 h2
    rw [hnode completed n1 h1, hnode completed n2 h2]
    exact ⟨fun h => by rw [h], fun h => colX_lt h⟩
  · have hAB := @layout_x_column [⟨"a", 1, ["b"], [], "t"⟩, ⟨"b", 2, [], [], "t"⟩] 800
      (by decide) (by decide)
    constructor
    · obtain ⟨y, hy⟩ := hAB ⟨"a", 1, ["b"], [], "t"⟩ (by decide)
      rw [show ((⟨"a", 1, ["b"], [], "t"⟩ : Topic).id) = "a" from rfl] at hy
      rw [hy]
      norm_num [colX, LEVEL_SPACING]
    · obtain ⟨y, hy⟩ := hAB ⟨"b", 2, [], [], "t"⟩ (by decide)
      rw [show ((⟨"b", 2, [], [], "t"⟩ : Topic).id) = "b" from rfl] at hy
      rw [hy]
      norm_num [colX, LEVEL_SPACING]

/-- Witness for C3 at a concrete input. -/
theorem claim_C3_witness :
    (computeLayout [⟨"a", 1, ["b"], [], "t"⟩, ⟨"b", 2, [], [], "t"⟩] 800 "a").map Prod.fst
      = some 100 :=
  (claim_C3 [⟨"a", 1, ["b"], [], "t"⟩, ⟨"b", 2, [], [], "t"⟩] 800
    (by decide) (by decide)).2.2.2.1

set_option maxRecDepth 100000 in
/-- C4: within a duplicate-free column of N nodes, node i receives
`y = height/2 - N*280/2 + 140 + i*280`; the stable sort leaves an already
weight-sorted level unchanged (ties preserve input order); and in the
three-topic no-relations scenario at level 2 the final positions keep the
input order with y = 220, 500, 780 for height 1000. -/
theorem claim_C4 :
    (∀ (height startX : ℚ) (ns : List Topic) (m : PosMap) (i : Nat) (hi : i < ns.length),
      (ns.map Topic.id).Nodup →
      applySpacing height ns startX m ((ns.get ⟨i, hi⟩).id) =
        some (startX,
          height / 2 - ((ns.length : ℚ) * NODE_SPACING) / 2 + 140 + (i : ℚ) * NODE_SPACING))
    ∧ (∀ (l : List (Topic × ℚ)), l.Pairwise (fun a b => a.2 ≤ b.2) → sortByKey Prod.snd l = l)
    ∧ (computeLayout [⟨"p", 2, [], [], "t"⟩, ⟨"q", 2, [], [], "t"⟩, ⟨"r", 2, [], [], "t"⟩]
          1000 "p" = some (600, 220)
      ∧ computeLayout [⟨"p", 2, [], [], "t"⟩, ⟨"q", 2, [], [], "t"⟩, ⟨"r", 2, [], [], "t"⟩]
          1000 "q" = some (600, 500)
      ∧ computeLayout [⟨"p", 2, [], [], "t"⟩, ⟨"q", 2, [], [], "t"⟩, ⟨"r", 2, [], [], "t"⟩]
          1000 "r" = some (600, 780)) := by
  refine ⟨fun height startX ns m i hi hnd => applySpacing_get height ns startX m i hi hnd,
    fun l h => sortByKey_of_pairwise Prod.snd l h, ?_, ?_, ?_⟩ <;>
  · norm_num [computeLayout, initialPositions, refineSweep, forwardPass, backwardPass,
      forwardWeight, backwardWeight, levelNodes, maxLevel, applySpacing, applySpacingAux,
      posY, PosMap.set, emptyPos, colX, sortByKey, insertByKey, NODE_SPACING,
      LEVEL_SPACING, List.range, List.range', List.foldl, List.filter, List.map,
      List.range.loop]
    try simp

/-- Witness for C4 at a concrete input. -/
theorem claim_C4_witness :
    applySpacing 1000 [⟨"p", 2, [], [], "t"⟩, ⟨"q", 2, [], [], "t"⟩, ⟨"r", 2, [], [], "t"⟩]
      100 emptyPos "q" = some (100, 500) := by
  have h := claim_C4.1 1000 100
    [⟨"p", 2, [], [], "t"⟩, ⟨"q", 2, [], [], "t"⟩, ⟨"r", 2, [], [], "t"⟩]
    emptyPos 1 (by decide) (by decide)
  norm_num [NODE_SPACING] at h
  exact h

/-- C5: the layout is the initial placement followed by exactly ten
refinement sweeps, where each sweep is the spec's forward pass over levels
2..maxLevel ascending (parent-mean weights, parents = strictly-lower-level
topics referencing the node) and then the symmetric backward pass over
levels maxLevel-1..1 descending (child-mean weights). -/
theorem claim_C5 (topics : List Topic) (height : ℚ) :
    computeLayout topics height =
      (specSweep topics height)^[10] (initialPositions topics height) := by
  unfold computeLayout
  rw [foldl_const_iterate (refineSweep topics height) (List.range 10),
    refineSweep_eq_spec topics height]
  simp

/-- C7: adding an id to the completion set never decreases a topic's
completion percent; `isComplete` holds iff the topic has a submodule and
percent is 100; and zero submodules give percent 0. -/
theorem claim_C7 (topic : Topic) (completedSubTopics : List String) (newId : String) :
    (getProgressStats completedSubTopics topic).percent ≤
      (getProgressStats (newId :: completedSubTopics) topic).percent
    ∧ (isComplete completedSubTopics topic = true ↔
        0 < (getProgressStats completedSubTopics topic).total ∧
          (getProgressStats completedSubTopics topic).percent = 100)
    ∧ (topic.subTopics = [] → (getProgressStats completedSubTopics topic).percent = 0) := by
  refine ⟨?_, ?_, ?_⟩
  · by_cases h : topic.subTopics.length = 0
    · simp [getProgressStats, h]
    · unfold getProgressStats
      rw [if_neg h, if_neg h]
      simp only
      have hT : (0 : ℚ) < (topic.subTopics.length : ℚ) :=
        Nat.cast_pos.mpr (Nat.pos_of_ne_zero h)
      have hc : ((topic.subTopics.filter
            (fun st => completedSubTopics.contains st)).length : ℚ) ≤
          ((topic.subTopics.filter
            (fun st => (newId :: completedSubTopics).contains st)).length : ℚ) := by
        have : ∀ st : String, completedSubTopics.contains st = true →
            (newId :: completedSubTopics).contains st = true := by
          intro st hst
          rw [List.contains_cons, hst, Bool.or_true]
        exact_mod_cast List.Sublist.length_le
          (List.monotone_filter_right topic.subTopics this)
      gcongr
  · simp [isComplete]
  · intro h
    simp [getProgressStats, h]

/-- C9: when the running zoom transform is not the identity, a re-layout
applies it unchanged; the computed initial fit is applied only when the
running transform is still the identity. -/
theorem claim_C9 (current : Transform) (nodes : List Node) (width height : ℚ) :
    (current ≠ zoomIdentity → appliedTransform current nodes width height = current)
    ∧ (current = zoomIdentity →
        appliedTransform current nodes width height = initialTransform nodes width height) := by
  have hiff : isZoomIdentity current = true ↔ current = zoomIdentity := by
    obtain ⟨cx, cy, ck⟩ := current
    simp only [isZoomIdentity, zoomIdentity, Bool.and_eq_true, decide_eq_true_eq,
      Transform.mk.injEq]
    tauto
  constructor
  · intro h
    unfold appliedTransform
    rw [if_neg (fun hc => h (hiff.mp hc))]
  · intro h
    unfold appliedTransform
    rw [if_pos (hiff.mpr h)]

/-- Witness for C9 at concrete inputs. -/
theorem claim_C9_witness :
    appliedTransform ⟨5, 0, 2⟩ [] 800 600 = ⟨5, 0, 2⟩
    ∧ appliedTransform ⟨0, 0, 1⟩ [] 800 600 = initialTransform [] 800 600 :=
  ⟨(claim_C9 ⟨5, 0, 2⟩ [] 800 600).1
      (by simp [zoomIdentity, Transform.mk.injEq]),
    (claim_C9 ⟨0, 0, 1⟩ [] 800 600).2 rfl⟩

/-- C10: under positive levels, the initial placement gives every topic id a
position entry, and the entry survives the refinement sweeps, so the
`{x: 0, y: 0}` fallback and the `?.y || 0` defaults are never exercised. -/
theorem claim_C10 (topics : List Topic) (height : ℚ)
    (hlev : ∀ t ∈ topics, 1 ≤ t.level) :
    ∀ t ∈ topics, ((initialPositions topics height) t.id).isSome
      ∧ ((computeLayout topics height) t.id).isSome :=
  fun t ht =>
    ⟨initialPositions_isSome height ht (hlev t ht), computeLayout_isSome height ht (hlev t ht)⟩

/-- Witness for C10 at a concrete input. -/
theorem claim_C10_witness :
    ((initialPositions [⟨"a", 1, [], [], "t"⟩] 800) "a").isSome
    ∧ ((computeLayout [⟨"a", 1, [], [], "t"⟩] 800) "a").isSome :=
  claim_C10 [⟨"a", 1, [], [], "t"⟩] 800 (by decide) ⟨"a", 1, [], [], "t"⟩ (by decide)

/-- C1: a related-topics entry `t` of a node `s` yields a routed edge
`(s, target, active = isComplete s)` exactly when a node with id `t` exists
and `s.level < target.level`; dangling references, self-references and
same-or-higher-level references yield no edge, and every routed edge
strictly increases in level. -/
theorem claim_C1 (topics : List Topic) (completed : List String) (height : ℚ)
    (hnd : (topics.map Topic.id).Nodup)
    (s : Node) (hs : s ∈ mkNodes topics completed height)
    (t : String) (ht : t ∈ s.relatedTopics) :
    ((∃ l ∈ allLinks (mkNodes topics completed height),
        l.src = s ∧ l.tgt.id = t ∧ s.level < l.tgt.level ∧
          l.active = isComplete completed s.toTopic)
      ↔ ∃ target ∈ mkNodes topics completed height, target.id = t ∧ s.level < target.level)
    ∧ (∀ l ∈ allLinks (mkNodes topics completed height), l.src.level < l.tgt.level) := by
  have hnodesnd : ((mkNodes topics completed height).map (fun n => n.id)).Nodup := by
    rw [mkNodes_map_id]; exact hnd
  constructor
  · constructor
    · rintro ⟨l, hl, hsrc, htgt, hlt, -⟩
      obtain ⟨s2, hs2, hlf⟩ := mem_allLinks.mp hl
      obtain ⟨tid, htid, tg, hfind, hlt2, rfl⟩ := linksFrom_mem.mp hlf
      exact ⟨tg, List.mem_of_find?_eq_some hfind, htgt, hlt⟩
    · rintro ⟨tg, htg, htgid, hlt⟩
      have hfs : ((mkNodes topics completed height).find? (fun n => n.id == t)).isSome :=
        List.find?_isSome.mpr ⟨tg, htg, by simp [htgid]⟩
      obtain ⟨tg2, hfind⟩ := Option.isSome_iff_exists.mp hfs
      have htg2id : tg2.id = t := by simpa using List.find?_some hfind
      have htg2mem : tg2 ∈ mkNodes topics completed height := List.mem_of_find?_eq_some hfind
      have htg2eq : tg2 = tg :=
        List.inj_on_of_nodup_map hnodesnd htg2mem htg (htg2id.trans htgid.symm)
      have hlt2 : s.level < tg2.level := by rw [htg2eq]; exact hlt
      refine ⟨⟨s, tg2, s.complete⟩, ?_, rfl, htg2id, hlt2, node_complete hs⟩
      exact mem_allLinks.mpr ⟨s, hs, linksFrom_mem.mpr ⟨t, ht, tg2, hfind, hlt2, rfl⟩⟩
  · intro l hl
    obtain ⟨s2, hs2, hlf⟩ := mem_allLinks.mp hl
    obtain ⟨tid, htid, tg, hfind, hlt2, rfl⟩ := linksFrom_mem.mp hlf
    exact hlt2

/-- Witness for C1 at the two-topic scenario. -/
theorem claim_C1_witness :
    ∃ l ∈ allLinks (mkNodes [⟨"a", 1, ["b"], [], "t"⟩, ⟨"b", 2, [], [], "t"⟩] [] 800),
      l.src = mkNode []
          (computeLayout [⟨"a", 1, ["b"], [], "t"⟩, ⟨"b", 2, [], [], "t"⟩] 800)
          ⟨"a", 1, ["b"], [], "t"⟩
      ∧ l.tgt.id = "b"
      ∧ (mkNode []
          (computeLayout [⟨"a", 1, ["b"], [], "t"⟩, ⟨"b", 2, [], [], "t"⟩] 800)
          ⟨"a", 1, ["b"], [], "t"⟩).level < l.tgt.level
      ∧ l.active = isComplete []
          (mkNode []
            (computeLayout [⟨"a", 1, ["b"], [], "t"⟩, ⟨"b", 2, [], [], "t"⟩] 800)
            ⟨"a", 1, ["b"], [], "t"⟩).toTopic :=
  (claim_C1 [⟨"a", 1, ["b"], [], "t"⟩, ⟨"b", 2, [], [], "t"⟩] [] 800 (by decide)
      (mkNode []
        (computeLayout [⟨"a", 1, ["b"], [], "t"⟩, ⟨"b", 2, [], [], "t"⟩] 800)
        ⟨"a", 1, ["b"], [], "t"⟩)
      (List.mem_cons_self _ _) "b" (List.mem_cons_self _ _)).1.mpr
    ⟨mkNode []
        (computeLayout [⟨"a", 1, ["b"], [], "t"⟩, ⟨"b", 2, [], [], "t"⟩] 800)
        ⟨"b", 2, [], [], "t"⟩,
      List.mem_cons_of_mem _ (List.mem_cons_self _ _), rfl, by decide⟩

/-- C2: after port assignment, for every node id the `sourceIndex` values of
its outgoing edges are a permutation of `{0, ..., sourceTotal - 1}`, each
`sourceTotal` is the outgoing count, and indices increase with the target's
y-coordinate; symmetrically for incoming edges with `targetIndex`,
`targetTotal` and the source's y-coordinate. -/
theorem claim_C2 (links : List Link) (nid : String) :
    ((((assignPorts links).filter (fun p => p.src.id == nid)).map
        (fun p => p.sourceIndex)).Perm
      (List.range ((assignPorts links).filter (fun p => p.src.id == nid)).length))
    ∧ (∀ p ∈ (assignPorts links).filter (fun p => p.src.id == nid),
        p.sourceTotal = ((assignPorts links).filter (fun p => p.src.id == nid)).length)
    ∧ (∀ p q, p ∈ (assignPorts links).filter (fun p => p.src.id == nid) →
        q ∈ (assignPorts links).filter (fun p => p.src.id == nid) →
        p.sourceIndex < q.sourceIndex → p.tgt.y ≤ q.tgt.y)
    ∧ ((((assignPorts links).filter (fun p => p.tgt.id == nid)).map
        (fun p => p.targetIndex)).Perm
      (List.range ((assignPorts links).filter (fun p => p.tgt.id == nid)).length))
    ∧ (∀ p ∈ (assignPorts links).filter (fun p => p.tgt.id == nid),
        p.targetTotal = ((assignPorts links).filter (fun p => p.tgt.id == nid)).length)
    ∧ (∀ p q, p ∈ (assignPorts links).filter (fun p => p.tgt.id == nid) →
        q ∈ (assignPorts links).filter (fun p => p.tgt.id == nid) →
        p.targetIndex < q.targetIndex → p.src.y ≤ q.src.y) := by
  have hidxnd : ((enumKeys 0 links).map Prod.fst).Nodup := enumKeys_fst_nodup 0 links
  have hofilter : (assignPorts links).filter (fun p => p.src.id == nid) =
      ((enumKeys 0 links).filter (fun r => r.2.src.id == nid)).map
        (portLink (enumKeys 0 links)) := by
    show ((enumKeys 0 links).map (portLink (enumKeys 0 links))).filter
        (fun p => p.src.id == nid) = _
    rw [List.filter_map]
    rfl
  have hifilter : (assignPorts links).filter (fun p => p.tgt.id == nid) =
      ((enumKeys 0 links).filter (fun r => r.2.tgt.id == nid)).map
        (portLink (enumKeys 0 links)) := by
    show ((enumKeys 0 links).map (portLink (enumKeys 0 links))).filter
        (fun p => p.tgt.id == nid) = _
    rw [List.filter_map]
    rfl
  have hond : ((((enumKeys 0 links).filter (fun r => r.2.src.id == nid))).map Prod.fst).Nodup :=
    List.Nodup.sublist (List.Sublist.map Prod.fst (List.filter_sublist _)) hidxnd
  have hind : ((((enumKeys 0 links).filter (fun r => r.2.tgt.id == nid))).map Prod.fst).Nodup :=
    List.Nodup.sublist (List.Sublist.map Prod.fst (List.filter_sublist _)) hidxnd
  have hsrcEq : ∀ q ∈ (enumKeys 0 links).filter (fun r => r.2.src.id == nid),
      (portLink (enumKeys 0 links) q).sourceIndex =
        (sortByKey (fun r => r.2.tgt.y)
          ((enumKeys 0 links).filter (fun r => r.2.src.id == nid))).findIdx
          (fun r => r.1 == q.1)
      ∧ (portLink (enumKeys 0 links) q).sourceTotal =
        ((enumKeys 0 links).filter (fun r => r.2.src.id == nid)).length := by
    intro q hq
    have hqid : q.2.src.id = nid := by simpa using (List.mem_filter.mp hq).2
    have hfeq : (enumKeys 0 links).filter (fun r => r.2.src.id == q.2.src.id) =
        (enumKeys 0 links).filter (fun r => r.2.src.id == nid) :=
      List.filter_congr (fun r _ => by rw [hqid])
    exact ⟨by simp only [portLink, hfeq], by simp only [portLink, hfeq]⟩
  have htgtEq : ∀ q ∈ (enumKeys 0 links).filter (fun r => r.2.tgt.id == nid),
      (portLink (enumKeys 0 links) q).targetIndex =
        (sortByKey (fun r => r.2.src.y)
          ((enumKeys 0 links).filter (fun r => r.2.tgt.id == nid))).findIdx
          (fun r => r.1 == q.1)
      ∧ (portLink (enumKeys 0 links) q).targetTotal =
        ((enumKeys 0 links).filter (fun r => r.2.tgt.id == nid)).length := by
    intro q hq
    have hqid : q.2.tgt.id = nid := by simpa using (List.mem_filter.mp hq).2
    have hfeq : (enumKeys 0 links).filter (fun r => r.2.tgt.id == q.2.tgt.id) =
        (enumKeys 0 links).filter (fun r => r.2.tgt.id == nid) :=
      List.filter_congr (fun r _ => by rw [hqid])
    exact ⟨by simp only [portLink, hfeq], by simp only [portLink, hfeq]⟩
  refine ⟨?_, ?_, ?_, ?_, ?_, ?_⟩
  · rw [hofilter, List.map_map, List.length_map]
    have hmc : List.map ((fun p : PortedLink => p.sourceIndex) ∘ portLink (enumKeys 0 links))
        ((enumKeys 0 links).filter (fun r => r.2.src.id == nid)) =
        List.map (fun q => (sortByKey (fun r => r.2.tgt.y)
          ((enumKeys 0 links).filter (fun r => r.2.src.id == nid))).findIdx
            (fun r => r.1 == q.1))
          ((enumKeys 0 links).filter (fun r => r.2.src.id == nid)) :=
      List.map_congr_left (fun q hq => (hsrcEq q hq).1)
    rw [hmc]
    exact rank_perm_range _ _ hond
  · intro p hp
    rw [hofilter] at hp
    obtain ⟨q, hq, rfl⟩ := List.mem_map.mp hp
    rw [hofilter, List.length_map]
    exact (hsrcEq q hq).2
  · intro p1 p2 hp1 hp2 hlt
    rw [hofilter] at hp1 hp2
    obtain ⟨q1, hq1, rfl⟩ := List.mem_map.mp hp1
    obtain ⟨q2, hq2, rfl⟩ := List.mem_map.mp hp2
    rw [(hsrcEq q1 hq1).1, (hsrcEq q2 hq2).1] at hlt
    exact rank_le_key (fun r => r.2.tgt.y) _ hond hq1 hq2 hlt
  · rw [hifilter, List.map_map, List.length_map]
    have hmc : List.map ((fun p : PortedLink => p.targetIndex) ∘ portLink (enumKeys 0 links))
        ((enumKeys 0 links).filter (fun r => r.2.tgt.id == nid)) =
        List.map (fun q => (sortByKey (fun r => r.2.src.y)
          ((enumKeys 0 links).filter (fun r => r.2.tgt.id == nid))).findIdx
            (fun r => r.1 == q.1))
          ((enumKeys 0 links).filter (fun r => r.2.tgt.id == nid)) :=
      List.map_congr_left (fun q hq => (htgtEq q hq).1)
    rw [hmc]
    exact rank_perm_range _ _ hind
  · intro p hp
    rw [hifilter] at hp
    obtain ⟨q, hq, rfl⟩ := List.mem_map.mp hp
    rw [hifilter, List.length_map]
    exact (htgtEq q hq).2
  · intro p1 p2 hp1 hp2 hlt
    rw [hifilter] at hp1 hp2
    obtain ⟨q1, hq1, rfl⟩ := List.mem_map.mp hp1
    obtain ⟨q2, hq2, rfl⟩ := List.mem_map.mp hp2
    rw [(htgtEq q1 hq1).1, (htgtEq q2 hq2).1] at hlt
    exact rank_le_key (fun r => r.2.src.y) _ hind hq1 hq2 hlt

/-! ### Geometry factors through the completion-free core -/

theorem findIdx_map_comp {α β : Type} (f : α → β) (p : β → Bool) :
    ∀ l : List α, (l.map f).findIdx p = l.findIdx (fun a => p (f a)) := by
  intro l
  induction l with
  | nil => rfl
  | cons x xs ih => simp [List.findIdx_cons, ih]

theorem filter_map_core {α β : Type} (m : α → β) (p : α → Bool) (q : β → Bool)
    (h : ∀ r, q (m r) = p r) (l : List α) :
    (l.map m).filter q = (l.filter p).map m := by
  rw [List.filter_map]
  exact congrArg _ (List.filter_congr (fun r _ => h r))

theorem mkNodes_core (topics : List Topic) (completed : List String) (height : ℚ) :
    (mkNodes topics completed height).map Node.core =
      topics.map (coreMkNode (computeLayout topics height)) := by
  unfold mkNodes
  rw [List.map_map]
  rfl

theorem linksFrom_core (ns : List Node) (s : Node) :
    (linksFrom ns s).map Link.core = coreLinksFrom (ns.map Node.core) s.core := by
  unfold linksFrom coreLinksFrom
  rw [List.map_filterMap]
  show List.filterMap _ s.relatedTopics = List.filterMap _ s.relatedTopics
  apply List.filterMap_congr
  intro tid _
  have hfind : (ns.map Node.core).find? (fun n => n.id == tid) =
      (ns.find? (fun n => n.id == tid)).map Node.core := by
    rw [List.find?_map]
    rfl
  rw [hfind]
  generalize ns.find? (fun n => n.id == tid) = fo
  rcases fo with _ | tg
  · rfl
  · show Option.map Link.core (if s.level < tg.level then some ⟨s, tg, s.complete⟩ else none) =
      if s.core.level < tg.core.level then some ⟨s.core, tg.core⟩ else none
    by_cases hlt : s.level < tg.level
    · rw [if_pos hlt, if_pos (show s.core.level < tg.core.level from hlt)]; rfl
    · rw [if_neg hlt, if_neg (show ¬s.core.level < tg.core.level from hlt)]; rfl

theorem allLinks_core (ns : List Node) :
    (allLinks ns).map Link.core = coreAllLinks (ns.map Node.core) := by
  unfold allLinks coreAllLinks
  rw [List.map_flatten, List.map_map, List.map_map]
  congr 1
  apply List.map_congr_left
  intro s _
  exact linksFrom_core ns s

theorem portLink_core (idx : List (Nat × Link)) (q : Nat × Link) :
    (portLink idx q).geom =
      corePortLink (idx.map (Prod.map id Link.core)) (Prod.map id Link.core q) := by
  have hofilter : (idx.map (Prod.map id Link.core)).filter
      (fun r => r.2.src.id == (Prod.map id Link.core q).2.src.id) =
      (idx.filter (fun r => r.2.src.id == q.2.src.id)).map (Prod.map id Link.core) :=
    filter_map_core _ _ _ (fun r => rfl) idx
  have hifilter : (idx.map (Prod.map id Link.core)).filter
      (fun r => r.2.tgt.id == (Prod.map id Link.core q).2.tgt.id) =
      (idx.filter (fun r => r.2.tgt.id == q.2.tgt.id)).map (Prod.map id Link.core) :=
    filter_map_core _ _ _ (fun r => rfl) idx
  show (⟨⟨(portLink idx q).src.core, (portLink idx q).tgt.core⟩, (portLink idx q).sourceIndex,
      (portLink idx q).sourceTotal, (portLink idx q).targetIndex, (portLink idx q).targetTotal⟩ :
      CoreLink × Nat × Nat × Nat × Nat) = _
  unfold portLink corePortLink
  simp only
  rw [hofilter, hifilter,
    ← sortByKey_map (fun r : Nat × Link => r.2.tgt.y) (fun r : Nat × CoreLink => r.2.tgt.y)
      (Prod.map id Link.core) (fun a => rfl),
    ← sortByKey_map (fun r : Nat × Link => r.2.src.y) (fun r : Nat × CoreLink => r.2.src.y)
      (Prod.map id Link.core) (fun a => rfl),
    findIdx_map_comp, findIdx_map_comp, List.length_map, List.length_map]
  rfl

theorem assignPorts_geom (links : List Link) :
    (assignPorts links).map PortedLink.geom = coreAssignPorts (links.map Link.core) := by
  unfold assignPorts coreAssignPorts
  rw [enumKeys_map, List.map_map, List.map_map]
  apply List.map_congr_left
  intro q _
  exact portLink_core (enumKeys 0 links) q

/-- C8: the node geometry (ids and positions) and the routed-edge geometry
(endpoints and all four port numbers) are identical across any two completion
sets and any two hidden-instructor filter sets; those inputs only affect the
`active` flags and the rendering opacities. -/
theorem claim_C8 (topics : List Topic) (height : ℚ) (c1 c2 hid1 hid2 : List String) :
    ((renderModel topics c1 hid1 height).1.map Node.core =
      (renderModel topics c2 hid2 height).1.map Node.core)
    ∧ ((renderModel topics c1 hid1 height).2.map (fun p => p.1.geom) =
      (renderModel topics c2 hid2 height).2.map (fun p => p.1.geom)) := by
  have hnodes : (mkNodes topics c1 height).map Node.core =
      (mkNodes topics c2 height).map Node.core := by
    rw [mkNodes_core, mkNodes_core]
  have hlinks : (allLinks (mkNodes topics c1 height)).map Link.core =
      (allLinks (mkNodes topics c2 height)).map Link.core := by
    rw [allLinks_core, allLinks_core, hnodes]
  constructor
  · exact hnodes
  · show ((assignPorts (allLinks (mkNodes topics c1 height))).map
        (fun l => (l, linkOpacity hid1 l))).map (fun p => p.1.geom) = _
    rw [List.map_map]
    show (assignPorts (allLinks (mkNodes topics c1 height))).map PortedLink.geom =
      ((assignPorts (allLinks (mkNodes topics c2 height))).map
        (fun l => (l, linkOpacity hid2 l))).map (fun p => p.1.geom)
    rw [List.map_map]
    show _ = (assignPorts (allLinks (mkNodes topics c2 height))).map PortedLink.geom
    rw [assignPorts_geom, assignPorts_geom, hlinks]

/-! ### Bounding box and fit-transform lemmas -/

theorem foldl_min_le_init : ∀ (l : List ℚ) (a : ℚ), l.foldl min a ≤ a := by
  intro l
  induction l with
  | nil => intro a; exact le_refl a
  | cons x xs ih => intro a; exact le_trans (ih (min a x)) (min_le_left a x)

theorem foldl_min_le_mem : ∀ (l : List ℚ) (a b : ℚ), b ∈ l → l.foldl min a ≤ b := by
  intro l
  induction l with
  | nil => intro a b hb; cases hb
  | cons x xs ih =>
    intro a b hb
    rcases List.mem_cons.mp hb with rfl | hb
    · exact le_trans (foldl_min_le_init xs (min a b)) (min_le_right a b)
    · exact ih (min a x) b hb

theorem le_foldl_max_init : ∀ (l : List ℚ) (a : ℚ), a ≤ l.foldl max a := by
  intro l
  induction l with
  | nil => intro a; exact le_refl a
  | cons x xs ih => intro a; exact le_trans (le_max_left a x) (ih (max a x))

theorem mem_le_foldl_maxQ : ∀ (l : List ℚ) (a b : ℚ), b ∈ l → b ≤ l.foldl max a := by
  intro l
  induction l with
  | nil => intro a b hb; cases hb
  | cons x xs ih =>
    intro a b hb
    rcases List.mem_cons.mp hb with rfl | hb
    · exact le_trans (le_max_right a b) (le_foldl_max_init xs (max a b))
    · exact ih (max a x) b hb

theorem bboxMinX_le {ns : List Node} {n : Node} (hn : n ∈ ns) : bboxMinX ns ≤ n.x := by
  cases ns with
  | nil => cases hn
  | cons n0 ns0 =>
    show (ns0.map Node.x).foldl min n0.x ≤ n.x
    rcases List.mem_cons.mp hn with rfl | hn
    · exact foldl_min_le_init _ _
    · exact foldl_min_le_mem _ _ _ (List.mem_map_of_mem Node.x hn)

theorem le_bboxMaxX {ns : List Node} {n : Node} (hn : n ∈ ns) :
    n.x + NODE_WIDTH ≤ bboxMaxX ns := by
  cases ns with
  | nil => cases hn
  | cons n0 ns0 =>
    show _ ≤ (ns0.map (fun d => d.x + NODE_WIDTH)).foldl max (n0.x + NODE_WIDTH)
    rcases List.mem_cons.mp hn with rfl | hn
    · exact le_foldl_max_init _ _
    · exact mem_le_foldl_maxQ _ _ _ (List.mem_map_of_mem (fun d => d.x + NODE_WIDTH) hn)

theorem bboxMinY_le {ns : List Node} {n : Node} (hn : n ∈ ns) : bboxMinY ns ≤ n.y := by
  cases ns with
  | nil => cases hn
  | cons n0 ns0 =>
    show (ns0.map Node.y).foldl min n0.y ≤ n.y
    rcases List.mem_cons.mp hn with rfl | hn
    · exact foldl_min_le_init _ _
    · exact foldl_min_le_mem _ _ _ (List.mem_map_of_mem Node.y hn)

theorem le_bboxMaxY {ns : List Node} {n : Node} (hn : n ∈ ns) :
    n.y + NODE_HEIGHT ≤ bboxMaxY ns := by
  cases ns with
  | nil => cases hn
  | cons n0 ns0 =>
    show _ ≤ (ns0.map (fun d => d.y + NODE_HEIGHT)).foldl max (n0.y + NODE_HEIGHT)
    rcases List.mem_cons.mp hn with rfl | hn
    · exact le_foldl_max_init _ _
    · exact mem_le_foldl_maxQ _ _ _ (List.mem_map_of_mem (fun d => d.y + NODE_HEIGHT) hn)

/-- When the unclamped ratio is at least 0.1, the lower clamp never fires. -/
theorem clamp_eq (s0 : ℚ) (h : 1 / 10 ≤ s0) :
    (if (if 1 < s0 then 1 else s0) < 1 / 10 then (1 / 10 : ℚ) else if 1 < s0 then 1 else s0)
      = if 1 < s0 then 1 else s0 := by
  by_cases h1 : 1 < s0
  · rw [if_pos h1, if_neg (show ¬(1 : ℚ) < 1 / 10 from by norm_num)]
  · rw [if_neg h1, if_neg (not_lt.mpr h)]

theorem initialTransform_eq (nodes : List Node) (width height : ℚ)
    (hs : 1 / 10 ≤ min ((width - 200) / (bboxMaxX nodes - bboxMinX nodes))
      ((height - 200) / (bboxMaxY nodes - bboxMinY nodes))) :
    initialTransform nodes width height =
      ⟨width / 2 -
          (if 1 < min ((width - 200) / (bboxMaxX nodes - bboxMinX nodes))
              ((height - 200) / (bboxMaxY nodes - bboxMinY nodes)) then 1
            else min ((width - 200) / (bboxMaxX nodes - bboxMinX nodes))
              ((height - 200) / (bboxMaxY nodes - bboxMinY nodes))) *
            ((bboxMinX nodes + bboxMaxX nodes) / 2),
        height / 2 -
          (if 1 < min ((width - 200) / (bboxMaxX nodes - bboxMinX nodes))
              ((height - 200) / (bboxMaxY nodes - bboxMinY nodes)) then 1
            else min ((width - 200) / (bboxMaxX nodes - bboxMinX nodes))
              ((height - 200) / (bboxMaxY nodes - bboxMinY nodes))) *
            ((bboxMinY nodes + bboxMaxY nodes) / 2),
        if 1 < min ((width - 200) / (bboxMaxX nodes - bboxMinX nodes))
            ((height - 200) / (bboxMaxY nodes - bboxMinY nodes)) then 1
          else min ((width - 200) / (bboxMaxX nodes - bboxMinX nodes))
            ((height - 200) / (bboxMaxY nodes - bboxMinY nodes))⟩ := by
  unfold initialTransform
  simp only
  rw [show width - (100 : ℚ) * 2 = width - 200 from by ring,
    show height - (100 : ℚ) * 2 = height - 200 from by ring]
  rw [clamp_eq _ hs]

/-- C6 (amended): the fit transform maps the bounding-box center to the
viewport center, and whenever the unclamped ratio
`min(availableWidth/graphWidth, availableHeight/graphHeight)` is at least
0.1 (so the lower clamp does not fire), every node's projected box fits
within the viewport on both axes. -/
theorem claim_C6 (nodes : List Node) (width height : ℚ) (hne : nodes ≠ [])
    (hs : 1 / 10 ≤ min ((width - 200) / (bboxMaxX nodes - bboxMinX nodes))
      ((height - 200) / (bboxMaxY nodes - bboxMinY nodes))) :
    ((initialTransform nodes width height).k * ((bboxMinX nodes + bboxMaxX nodes) / 2) +
        (initialTransform nodes width height).x = width / 2)
    ∧ ((initialTransform nodes width height).k * ((bboxMinY nodes + bboxMaxY nodes) / 2) +
        (initialTransform nodes width height).y = height / 2)
    ∧ (∀ n ∈ nodes,
        (0 ≤ (initialTransform nodes width height).k * n.x +
          (initialTransform nodes width height).x)
        ∧ ((initialTransform nodes width height).k * (n.x + NODE_WIDTH) +
            (initialTransform nodes width height).x ≤ width)
        ∧ (0 ≤ (initialTransform nodes width height).k * n.y +
          (initialTransform nodes width height).y)
        ∧ ((initialTransform nodes width height).k * (n.y + NODE_HEIGHT) +
            (initialTransform nodes width height).y ≤ height)) := by
  obtain ⟨n0, hn0⟩ := List.exists_mem_of_ne_nil nodes hne
  have hW : (0 : ℚ) < NODE_WIDTH := by norm_num [NODE_WIDTH]
  have hH : (0 : ℚ) < NODE_HEIGHT := by norm_num [NODE_HEIGHT]
  have hgw : 0 < bboxMaxX nodes - bboxMinX nodes := by
    have h1 := bboxMinX_le hn0
    have h2 := le_bboxMaxX hn0
    linarith
  have hgh : 0 < bboxMaxY nodes - bboxMinY nodes := by
    have h1 := bboxMinY_le hn0
    have h2 := le_bboxMaxY hn0
    linarith
  rw [initialTransform_eq nodes width height hs]
  set s0 := min ((width - 200) / (bboxMaxX nodes - bboxMinX nodes))
    ((height - 200) / (bboxMaxY nodes - bboxMinY nodes)) with hs0def
  set k := if 1 < s0 then 1 else s0 with hkdef
  have hk_le : k ≤ s0 := by
    rw [hkdef]
    by_cases h1 : 1 < s0
    · rw [if_pos h1]; exact le_of_lt h1
    · rw [if_neg h1]
  have hk_pos : 0 < k := by
    rw [hkdef]
    by_cases h1 : 1 < s0
    · rw [if_pos h1]; norm_num
    · rw [if_neg h1]; linarith
  have hkgw : k * (bboxMaxX nodes - bboxMinX nodes) ≤ width - 200 :=
    (le_div_iff₀ hgw).mp (le_trans hk_le (min_le_left _ _))
  have hkgh : k * (bboxMaxY nodes - bboxMinY nodes) ≤ height - 200 :=
    (le_div_iff₀ hgh).mp (le_trans hk_le (min_le_right _ _))
  refine ⟨by ring, by ring, ?_⟩
  intro n hn
  have hx1 : bboxMinX nodes ≤ n.x := bboxMinX_le hn
  have hx2 : n.x + NODE_WIDTH ≤ bboxMaxX nodes := le_bboxMaxX hn
  have hy1 : bboxMinY nodes ≤ n.y := bboxMinY_le hn
  have hy2 : n.y + NODE_HEIGHT ≤ bboxMaxY nodes := le_bboxMaxY hn
  have e1 : k * bboxMinX nodes ≤ k * n.x := mul_le_mul_of_nonneg_left hx1 hk_pos.le
  have e2 : k * (n.x + NODE_WIDTH) ≤ k * bboxMaxX nodes :=
    mul_le_mul_of_nonneg_left hx2 hk_pos.le
  have e3 : k * bboxMinY nodes ≤ k * n.y := mul_le_mul_of_nonneg_left hy1 hk_pos.le
  have e4 : k * (n.y + NODE_HEIGHT) ≤ k * bboxMaxY nodes :=
    mul_le_mul_of_nonneg_left hy2 hk_pos.le
  refine ⟨?_, ?_, ?_, ?_⟩
  · show 0 ≤ k * n.x + (width / 2 - k * ((bboxMinX nodes + bboxMaxX nodes) / 2))
    nlinarith [e1, hkgw]
  · show k * (n.x + NODE_WIDTH) + (width / 2 - k * ((bboxMinX nodes + bboxMaxX nodes) / 2)) ≤ width
    nlinarith [e2, hkgw]
  · show 0 ≤ k * n.y + (height / 2 - k * ((bboxMinY nodes + bboxMaxY nodes) / 2))
    nlinarith [e3, hkgh]
  · show k * (n.y + NODE_HEIGHT) + (height / 2 - k * ((bboxMinY nodes + bboxMaxY nodes) / 2)) ≤ height
    nlinarith [e4, hkgh]

theorem layout_getD_x {topics : List Topic} (height : ℚ)
    (hlev : ∀ t ∈ topics, 1 ≤ t.level) (hnd : (topics.map Topic.id).Nodup)
    {t : Topic} (ht : t ∈ topics) :
    ((computeLayout topics height t.id).getD (0, 0)).1 = colX t.level := by
  obtain ⟨y, hy⟩ := layout_x_column height hlev hnd t ht
  rw [hy]
  rfl

/-- C6 counterexample: on the seven-level topic list in a 300×800 viewport,
the 0.1 lower clamp engages and the projected bounding box overflows the
viewport on the x axis on both sides. -/
theorem claim_C6_counterexample :
    mkNodes wideTopics [] 800 ≠ []
    ∧ ((initialTransform (mkNodes wideTopics [] 800) 300 800).k *
          bboxMinX (mkNodes wideTopics [] 800) +
        (initialTransform (mkNodes wideTopics [] 800) 300 800).x < 0)
    ∧ (300 < (initialTransform (mkNodes wideTopics [] 800) 300 800).k *
          bboxMaxX (mkNodes wideTopics [] 800) +
        (initialTransform (mkNodes wideTopics [] 800) 300 800).x) := by
  have hxa : (mkNode [] (computeLayout wideTopics 800) ⟨"a", 1, [], [], "t"⟩).x = colX 1 :=
    layout_getD_x 800 (by decide) (by decide) (by decide)
  have hxb : (mkNode [] (computeLayout wideTopics 800) ⟨"b", 2, [], [], "t"⟩).x = colX 2 :=
    layout_getD_x 800 (by decide) (by decide) (by decide)
  have hxc : (mkNode [] (computeLayout wideTopics 800) ⟨"c", 3, [], [], "t"⟩).x = colX 3 :=
    layout_getD_x 800 (by decide) (by decide) (by decide)
  have hxd : (mkNode [] (computeLayout wideTopics 800) ⟨"d", 4, [], [], "t"⟩).x = colX 4 :=
    layout_getD_x 800 (by decide) (by decide) (by decide)
  have hxe : (mkNode [] (computeLayout wideTopics 800) ⟨"e", 5, [], [], "t"⟩).x = colX 5 :=
    layout_getD_x 800 (by decide) (by decide) (by decide)
  have hxf : (mkNode [] (computeLayout wideTopics 800) ⟨"f", 6, [], [], "t"⟩).x = colX 6 :=
    layout_getD_x 800 (by decide) (by decide) (by decide)
  have hxg : (mkNode [] (computeLayout wideTopics 800) ⟨"g", 7, [], [], "t"⟩).x = colX 7 :=
    layout_getD_x 800 (by decide) (by decide) (by decide)
  have hminx : bboxMinX (mkNodes wideTopics [] 800) = 100 := by
    have hmap : (mkNodes wideTopics [] 800).map Node.x =
        [colX 1, colX 2, colX 3, colX 4, colX 5, colX 6, colX 7] := by
      show [(mkNode [] (computeLayout wideTopics 800) ⟨"a", 1, [], [], "t"⟩).x,
        (mkNode [] (computeLayout wideTopics 800) ⟨"b", 2, [], [], "t"⟩).x,
        (mkNode [] (computeLayout wideTopics 800) ⟨"c", 3, [], [], "t"⟩).x,
        (mkNode [] (computeLayout wideTopics 800) ⟨"d", 4, [], [], "t"⟩).x,
        (mkNode [] (computeLayout wideTopics 800) ⟨"e", 5, [], [], "t"⟩).x,
        (mkNode [] (computeLayout wideTopics 800) ⟨"f", 6, [], [], "t"⟩).x,
        (mkNode [] (computeLayout wideTopics 800) ⟨"g", 7, [], [], "t"⟩).x] = _
      rw [hxa, hxb, hxc, hxd, hxe, hxf, hxg]
    unfold bboxMinX
    rw [hmap]
    norm_num [colX, LEVEL_SPACING, min_def]
  have hmaxx : bboxMaxX (mkNodes wideTopics [] 800) = 3340 := by
    have hmap : (mkNodes wideTopics [] 800).map (fun d => d.x + NODE_WIDTH) =
        [colX 1 + NODE_WIDTH, colX 2 + NODE_WIDTH, colX 3 + NODE_WIDTH, colX 4 + NODE_WIDTH,
          colX 5 + NODE_WIDTH, colX 6 + NODE_WIDTH, colX 7 + NODE_WIDTH] := by
      show [(mkNode [] (computeLayout wideTopics 800) ⟨"a", 1, [], [], "t"⟩).x + NODE_WIDTH,
        (mkNode [] (computeLayout wideTopics 800) ⟨"b", 2, [], [], "t"⟩).x + NODE_WIDTH,
        (mkNode [] (computeLayout wideTopics 800) ⟨"c", 3, [], [], "t"⟩).x + NODE_WIDTH,
        (mkNode [] (computeLayout wideTopics 800) ⟨"d", 4, [], [], "t"⟩).x + NODE_WIDTH,
        (mkNode [] (computeLayout wideTopics 800) ⟨"e", 5, [], [], "t"⟩).x + NODE_WIDTH,
        (mkNode [] (computeLayout wideTopics 800) ⟨"f", 6, [], [], "t"⟩).x + NODE_WIDTH,
        (mkNode [] (computeLayout wideTopics 800) ⟨"g", 7, [], [], "t"⟩).x + NODE_WIDTH] = _
      rw [hxa, hxb, hxc, hxd, hxe, hxf, hxg]
    unfold bboxMaxX
    rw [hmap]
    norm_num [colX, LEVEL_SPACING, NODE_WIDTH, max_def]
  have hsmall : min ((300 - (100 : ℚ) * 2) / (3340 - 100))
      ((800 - (100 : ℚ) * 2) /
        (bboxMaxY (mkNodes wideTopics [] 800) - bboxMinY (mkNodes wideTopics [] 800))) ≤
        5 / 162 := by
    have := min_le_left ((300 - (100 : ℚ) * 2) / (3340 - 100))
      ((800 - (100 : ℚ) * 2) /
        (bboxMaxY (mkNodes wideTopics [] 800) - bboxMinY (mkNodes wideTopics [] 800)))
    have h1 : (300 - (100 : ℚ) * 2) / (3340 - 100) = 5 / 162 := by norm_num
    linarith
  have hn1 : ¬ (1 : ℚ) < min ((300 - (100 : ℚ) * 2) / (3340 - 100))
      ((800 - (100 : ℚ) * 2) /
        (bboxMaxY (mkNodes wideTopics [] 800) - bboxMinY (mkNodes wideTopics [] 800))) :=
    not_lt.mpr (hsmall.trans (by norm_num))
  have hp1 : min ((300 - (100 : ℚ) * 2) / (3340 - 100))
      ((800 - (100 : ℚ) * 2) /
        (bboxMaxY (mkNodes wideTopics [] 800) - bboxMinY (mkNodes wideTopics [] 800))) < 1 / 10 :=
    lt_of_le_of_lt hsmall (by norm_num)
  have hk : (initialTransform (mkNodes wideTopics [] 800) 300 800).k = 1 / 10 := by
    show (if (if 1 < min ((300 - (100 : ℚ) * 2) / (bboxMaxX (mkNodes wideTopics [] 800) -
              bboxMinX (mkNodes wideTopics [] 800)))
            ((800 - (100 : ℚ) * 2) / (bboxMaxY (mkNodes wideTopics [] 800) -
              bboxMinY (mkNodes wideTopics [] 800))) then 1
          else min _ _) < 1 / 10 then (1 / 10 : ℚ)
        else if 1 < min _ _ then 1 else min _ _) = 1 / 10
    rw [hminx, hmaxx]
    rw [if_neg hn1, if_pos hp1]
  have hx : (initialTransform (mkNodes wideTopics [] 800) 300 800).x = -22 := by
    show 300 / 2 - (if (if 1 < min ((300 - (100 : ℚ) * 2) / (bboxMaxX (mkNodes wideTopics [] 800) -
              bboxMinX (mkNodes wideTopics [] 800)))
            ((800 - (100 : ℚ) * 2) / (bboxMaxY (mkNodes wideTopics [] 800) -
              bboxMinY (mkNodes wideTopics [] 800))) then 1
          else min _ _) < 1 / 10 then (1 / 10 : ℚ)
        else if 1 < min _ _ then 1 else min _ _) *
        ((bboxMinX (mkNodes wideTopics [] 800) + bboxMaxX (mkNodes wideTopics [] 800)) / 2) = -22
    rw [hminx, hmaxx]
    rw [if_neg hn1, if_pos hp1]
    norm_num
  refine ⟨by simp [mkNodes, wideTopics], ?_, ?_⟩
  · rw [hk, hx, hminx]
    norm_num
  · rw [hk, hx, hmaxx]
    norm_num

/-- Witness for the amended C6 at a concrete single-node input. -/
theorem claim_C6_witness :
    (initialTransform [⟨⟨"a", 1, [], [], "t"⟩, 100, 400, ⟨0, 0, 0⟩, false⟩] 800 800).k *
        ((bboxMinX [⟨⟨"a", 1, [], [], "t"⟩, 100, 400, ⟨0, 0, 0⟩, false⟩] +
          bboxMaxX [⟨⟨"a", 1, [], [], "t"⟩, 100, 400, ⟨0, 0, 0⟩, false⟩]) / 2) +
      (initialTransform [⟨⟨"a", 1, [], [], "t"⟩, 100, 400, ⟨0, 0, 0⟩, false⟩] 800 800).x
      = 800 / 2 :=
  (claim_C6 [⟨⟨"a", 1, [], [], "t"⟩, 100, 400, ⟨0, 0, 0⟩, false⟩] 800 800 (by simp)
    (by norm_num [bboxMinX, bboxMaxX, bboxMinY, bboxMaxY, NODE_WIDTH, NODE_HEIGHT,
      List.map, List.foldl, min_def])).1

end DBe
